import Mathlib

/-!
A shallow embedding of the tool relevance search subsystem of the `onemcp`
repository, together with proofs of the specification's claims about it.

Sources embedded:
* `internal/llmsearch/codex_search_store.go` — `CodexSearchStore`
  (External-Rerank strategy) and `MockSearchStore` (Lexical strategy).
* `internal/vectorstore/glove_embedder.go` — the GloVe vector-file loader,
  tokenizer and `Generate`.

Modelling conventions:
* Go `float32` / `float64` values are modelled as rationals (`ℚ`); the only
  numeric facts the claims need (zero-initialisation, zero vectors) are exact.
* A Go runtime panic (e.g. `make` with negative capacity, slice index out of
  range) is modelled as `Option.none` / absence of a result.
* External collaborators (the Codex CLI searcher, the filesystem, the float
  field format) are modelled as explicit parameters, so every theorem
  quantifies over all of their possible behaviours.
* Go strings are Lean `String`s; `strings.ToLower`, `strings.Fields`,
  `strings.FieldsFunc` and `strings.Contains` are embedded on the ASCII
  fragment (all string constants in the repository are ASCII).
-/

namespace OneMcp

/-- A Go `any` (dynamic) value, as can appear in a tool's `InputSchema`.
`mapSA` is the dynamic type `map[string]any` that
`CodexSearchStore.BuildFromTools` tests for with a type assertion; `nilV` is
the nil interface value; the remaining constructors are the other dynamic
shapes a JSON-like schema can take. -/
inductive GoValue where
  | nilV : GoValue
  | strV (s : String) : GoValue
  | numV (q : ℚ) : GoValue
  | boolV (b : Bool) : GoValue
  | arrV (xs : List GoValue) : GoValue
  | mapSA (entries : List (String × GoValue)) : GoValue

/-- `tools.Tool` as used by the search stores: `Name`, `Category`,
`Description` and the opaque `InputSchema`. -/
structure Tool where
  Name : String
  Category : String
  Description : String
  InputSchema : GoValue

/-- `tools.ToolMetadata`: the serializable projection built by
`CodexSearchStore.BuildFromTools`. `Parameters = none` models the zero /
omitted `Parameters` field. -/
structure ToolMetadata where
  Name : String
  Category : String
  Description : String
  Parameters : Option (List (String × GoValue))

/-- ASCII model of `strings.ToLower` on one character. -/
def lowerChar (c : Char) : Char :=
  if 'A' ≤ c ∧ c ≤ 'Z' then Char.ofNat (c.toNat + 32) else c

/-- ASCII model of Go's `strings.ToLower`. -/
def goToLower (s : String) : String :=
  ⟨s.data.map lowerChar⟩

/-- `hasSubstr needle hay` decides whether `needle` occurs contiguously in
`hay`; auxiliary for `strings.Contains`. -/
def hasSubstr (needle : List Char) : List Char → Bool
  | [] => needle.isPrefixOf []
  | c :: rest => needle.isPrefixOf (c :: rest) || hasSubstr needle rest

/-- Go's `strings.Contains s sub`. -/
def goContains (s sub : String) : Bool :=
  hasSubstr sub.data s.data

/-- Accumulator pass shared by `strings.Fields` and `strings.FieldsFunc`:
collects the maximal runs of characters satisfying `keep`, in order.  `cur`
holds the current run in reverse. -/
def splitRunsAux (keep : Char → Bool) : List Char → List Char → List (List Char)
  | cur, [] => if cur.isEmpty then [] else [cur.reverse]
  | cur, c :: rest =>
    if keep c then splitRunsAux keep (c :: cur) rest
    else if cur.isEmpty then splitRunsAux keep [] rest
    else cur.reverse :: splitRunsAux keep [] rest

/-- The maximal runs of characters satisfying `keep`. -/
def splitRuns (keep : Char → Bool) (cs : List Char) : List (List Char) :=
  splitRunsAux keep [] cs

/-- ASCII whitespace, modelling `unicode.IsSpace` on the ASCII fragment. -/
def isGoSpace (c : Char) : Bool :=
  c = ' ' || c = '\t' || c = '\n' || c = '\r' || c = '\x0b' || c = '\x0c'

/-- Go's `strings.Fields`: split around runs of whitespace. -/
def goFields (s : String) : List String :=
  (splitRuns (fun c => !(isGoSpace c)) s.data).map fun run => (⟨run⟩ : String)

/-! ## MockSearchStore (Lexical strategy) -/

/-- The `scoredTool` record local to `MockSearchStore.Search`. -/
structure ScoredTool where
  tool : Tool
  score : Int

/-- The scoring loop of `MockSearchStore.Search`: starting from `0`, for each
query word add `3` when the lowercased name contains it, `2` when the
lowercased description contains it and `1` when the lowercased category
contains it. -/
def mockScore (queryWords : List String) (t : Tool) : Int :=
  let nameLower := goToLower t.Name
  let descLower := goToLower t.Description
  let categoryLower := goToLower t.Category
  queryWords.foldl
    (fun score word =>
      let score1 := if goContains nameLower word then score + 3 else score
      let score2 := if goContains descLower word then score1 + 2 else score1
      if goContains categoryLower word then score2 + 1 else score2)
    0

/-- One pass of the inner loop of the exchange sort in
`MockSearchStore.Search` (`for j := i+1; ...; if scored[j].score >
scored[i].score { swap }`): `x` is the current occupant of slot `i`; the pass
returns the element left in slot `i` at the end of the pass together with the
suffix slots `i+1 ..` as the pass leaves them. -/
def extractMax (x : ScoredTool) : List ScoredTool → ScoredTool × List ScoredTool
  | [] => (x, [])
  | y :: ys =>
    if y.score > x.score then
      ((extractMax y ys).1, x :: (extractMax y ys).2)
    else
      ((extractMax x ys).1, y :: (extractMax x ys).2)

/-- The outer loop of the exchange sort in `MockSearchStore.Search`.  The Go
loop runs the inner pass once per slot, i.e. exactly `length` times; the fuel
argument makes that count explicit and keeps the recursion structural. -/
def selSortFuel : Nat → List ScoredTool → List ScoredTool
  | _, [] => []
  | 0, l => l
  | fuel + 1, x :: xs =>
    (extractMax x xs).1 :: selSortFuel fuel (extractMax x xs).2

/-- The exchange sort of `MockSearchStore.Search` (score descending). -/
def selSort (l : List ScoredTool) : List ScoredTool :=
  selSortFuel l.length l

/-- `MockSearchStore.Search`.  `none` models a runtime panic: when the store
is non-empty and `topK` is negative, the Go code reaches
`make([]*tools.Tool, 0, topK)`, which panics on a negative capacity.
The store's `tools` slice (set by `BuildFromTools`) is the first argument. -/
def mockSearch (toolsList : List Tool) (query : String) (topK : Int) :
    Option (List Tool) :=
  if toolsList.length = 0 then some []
  else
    let queryWords := goFields (goToLower query)
    let scored := toolsList.filterMap fun t =>
      let score := mockScore queryWords t
      if score > 0 ∨ query = "" then some (⟨t, score⟩ : ScoredTool) else none
    let sorted := selSort scored
    if topK < 0 then none
    else some ((sorted.take topK.toNat).map ScoredTool.tool)

/-! ## CodexSearchStore (External-Rerank strategy) -/

/-- The `toolMap[name]` lookup in `CodexSearchStore.Search`: the Go map is
built by inserting the catalog's tools in order, so a later tool with the
same name overwrites an earlier one (last write wins). -/
def toolMapLookup (toolsList : List Tool) (name : String) : Option Tool :=
  toolsList.foldl (fun acc t => if t.Name = name then some t else acc) none

/-- `CodexSearchStore.Search`.  The call
`s.searcher.SearchTools(query, s.schemas, topK)` reaches an external
collaborator (the Codex CLI); its outcome is passed in as `searcherResult`,
so every theorem below quantifies over all replies the collaborator may
give.  Note the Go code performs no truncation of the mapped-back results. -/
def codexSearch (toolsList : List Tool)
    (searcherResult : Except String (List String))
    (query : String) (topK : Int) : Except String (List Tool) :=
  if toolsList.length = 0 then Except.ok []
  else
    match searcherResult with
    | Except.error e => Except.error ("codex search failed: " ++ e)
    | Except.ok toolNames =>
        Except.ok (toolNames.filterMap (toolMapLookup toolsList))

/-- The per-tool metadata projection inside `CodexSearchStore.BuildFromTools`:
`Name`, `Category`, `Description` are always copied; `Parameters` is set
exactly when the dynamic type assertion `tool.InputSchema.(map[string]any)`
succeeds (a nil interface fails the preceding `!= nil` guard). -/
def buildMetadata (tool : Tool) : ToolMetadata :=
  let metadata : ToolMetadata :=
    { Name := tool.Name, Category := tool.Category,
      Description := tool.Description, Parameters := none }
  match tool.InputSchema with
  | GoValue.mapSA schemaMap => { metadata with Parameters := some schemaMap }
  | _ => metadata

/-- `CodexSearchStore.BuildFromTools`.  `json.Marshal` of the metadata list is
the only fallible step in the Go code; on values of the shapes `GoValue`
models it always succeeds, so the build returns the metadata list. -/
def buildFromTools (allTools : List Tool) : Except String (List ToolMetadata) :=
  Except.ok (allTools.map buildMetadata)

/-! ## GloVe embedder (`internal/vectorstore/glove_embedder.go`) -/

/-- One iteration of the line loop of `loadGloVeVectors`: a line with fewer
than two whitespace-delimited fields is skipped (`continue`); otherwise the
first field is the word and `vec` is allocated zero-initialised with
`make([]float32, len(parts)-1)` and each remaining field is parsed, a field
that fails to parse being skipped so that its slot keeps the zero — which is
exactly `(parse s).getD 0` slotwise.  `parse` stands for
`strconv.ParseFloat(s, 32)`. -/
def parseLine (parse : String → Option ℚ) (line : String) :
    Option (String × List ℚ) :=
  match goFields line with
  | [] => none
  | [_] => none
  | word :: rest => some (word, rest.map fun s => (parse s).getD 0)

/-- `loadGloVeVectors` over the lines of the vector file.  The Go map
`vectors` is built by inserting in line order; it is modelled as the
association list of parsed lines with a last-write-wins lookup
(`vecLookup`). -/
def loadGloVeVectors (parse : String → Option ℚ) (lines : List String) :
    List (String × List ℚ) :=
  lines.filterMap (parseLine parse)

/-- Lookup in the `vectors` map (`e.vectors[word]`); last write wins, as for
a Go map built by in-order insertion. -/
def vecLookup (table : List (String × List ℚ)) (w : String) : Option (List ℚ) :=
  table.foldl (fun acc entry => if entry.1 = w then some entry.2 else acc) none

/-- The `GloVeEmbedder` state: the loaded vector table and the preset's
dimension. -/
structure GloVeEmbedder where
  vectors : List (String × List ℚ)
  dim : Nat

/-- `GloVeEmbedder.Dimension`. -/
def dimension (e : GloVeEmbedder) : Nat :=
  e.dim

/-- The `gloveModels` preset table: name ↦ (url, archive member, dimension). -/
def gloveModels : List (String × String × String × Nat) :=
  [("6B.50d", "http://nlp.stanford.edu/data/glove.6B.zip", "glove.6B.50d.txt", 50),
   ("6B.100d", "http://nlp.stanford.edu/data/glove.6B.zip", "glove.6B.100d.txt", 100),
   ("6B.200d", "http://nlp.stanford.edu/data/glove.6B.zip", "glove.6B.200d.txt", 200),
   ("6B.300d", "http://nlp.stanford.edu/data/glove.6B.zip", "glove.6B.300d.txt", 300)]

/-- `NewGloVeEmbedder`, with the download/cache/file steps (external I/O)
abstracted away: `table` is the result of `loadGloVeVectors` on the cached
vector file.  An unknown preset name is the construction error (`none`). -/
def newGloVeEmbedder (modelName : String) (table : List (String × List ℚ)) :
    Option GloVeEmbedder :=
  match gloveModels.foldl
      (fun acc entry => if entry.1 = modelName then some entry.2 else acc)
      none with
  | none => none
  | some (_, _, dim) => some { vectors := table, dim := dim }

/-- The stopword table of `GloVeEmbedder.tokenize`. -/
def stopWords : List String :=
  ["a", "an", "and", "are", "as", "at", "be", "by", "for", "from",
   "has", "he", "in", "is", "it", "its", "of", "on", "that", "the",
   "this", "to", "was", "will", "with"]

/-- A character kept by the `FieldsFunc` split in `GloVeEmbedder.tokenize`
(the Go predicate returns true on the complement). -/
def isLowerAlnum (c : Char) : Bool :=
  ('a' ≤ c && c ≤ 'z') || ('0' ≤ c && c ≤ '9')

/-- `GloVeEmbedder.tokenize`: lowercase, split on non-`[a-z0-9]`, drop
tokens of length ≤ 1 and stopwords. -/
def tokenize (text : String) : List String :=
  let lowered := goToLower text
  let words :=
    (splitRuns isLowerAlnum lowered.data).map fun run => (⟨run⟩ : String)
  words.filter fun word => word.length > 1 && !(stopWords.contains word)

/-- The elementwise accumulation `embedding[i] += vec[i]` for
`i = 0 .. dim-1`; defined only under the bound `dim ≤ vec.length` checked by
its caller (`embedding` always has length `dim`). -/
def addVecUpTo (emb vec : List ℚ) (dim : Nat) : List ℚ :=
  (List.range dim).map fun i => emb.getD i 0 + vec.getD i 0

/-- The accumulation loop of `GloVeEmbedder.Generate`: for each token found
in the table, add its vector elementwise into `emb` and bump `count`; a token
whose stored vector is shorter than `dim` makes `vec[i]` panic (`none`). -/
def accumVectors (table : List (String × List ℚ)) (dim : Nat) :
    List String → List ℚ → Nat → Option (List ℚ × Nat)
  | [], emb, count => some (emb, count)
  | w :: ws, emb, count =>
    match vecLookup table w with
    | none => accumVectors table dim ws emb count
    | some vec =>
      if dim ≤ vec.length then
        accumVectors table dim ws (addVecUpTo emb vec dim) (count + 1)
      else none

/-- Modelled from the spec: the vector-math utility `normalize` called by
`GloVeEmbedder.Generate` is not among the provided source files.  Per the
spec, L2 normalization divides by the vector's Euclidean norm if it is
nonzero, and returns the all-zero vector unchanged otherwise.  The square
root applied to the squared norm is a real-valued external operation; it is
taken as the parameter `sqrtF`, and every theorem below holds for every
choice of `sqrtF`. -/
def normalize (sqrtF : ℚ → ℚ) (v : List ℚ) : List ℚ :=
  let normSq := (v.map fun x => x * x).sum
  if normSq = 0 then v else v.map fun x => x / sqrtF normSq

/-- `GloVeEmbedder.Generate`: tokenize; on zero tokens return the zero
vector of the configured dimension; otherwise accumulate the found tokens'
vectors, divide by the found count when positive, and normalize.  `none`
models the index-out-of-range panic of the accumulation loop. -/
def generate (sqrtF : ℚ → ℚ) (e : GloVeEmbedder) (text : String) :
    Option (List ℚ) :=
  let words := tokenize text
  if words.length = 0 then some (List.replicate e.dim 0)
  else
    match accumVectors e.vectors e.dim words (List.replicate e.dim 0) 0 with
    | none => none
    | some (embedding, count) =>
      let averaged :=
        if count > 0 then embedding.map fun x => x / (count : ℚ) else embedding
      some (normalize sqrtF averaged)

/-! ## Spec-side definitions for the Lexical strategy (claim C4)

These restate the spec's description of the Lexical score and candidate set
in its own words, to be compared with the code-side `mockSearch`. -/

/-- Spec-side Lexical score: the query is split into whitespace-delimited
lowercase words; the score is 3 per word contained in the lowercased name,
plus 2 per word contained in the lowercased description, plus 1 per word
contained in the lowercased category, each field counted independently per
word. -/
def lexScoreSpec (query : String) (t : Tool) : Int :=
  let ws := goFields (goToLower query)
  3 * (((ws.filter fun w => goContains (goToLower t.Name) w).length : Int))
    + 2 * (((ws.filter fun w => goContains (goToLower t.Description) w).length : Int))
    + (((ws.filter fun w => goContains (goToLower t.Category) w).length : Int))

/-- Spec-side Lexical candidate set: the tools whose score is strictly
positive, or all tools when the query is the empty string, each paired with
its score, in catalog order. -/
def lexCandidatesSpec (toolsList : List Tool) (query : String) :
    List ScoredTool :=
  (toolsList.filter fun t => decide (lexScoreSpec query t > 0 ∨ query = "")).map
    fun t => ⟨t, lexScoreSpec query t⟩

/-! ## Properties of the exchange sort -/

theorem extractMax_snd_length (x : ScoredTool) (ys : List ScoredTool) :
    (extractMax x ys).2.length = ys.length := by
  induction ys generalizing x with
  | nil => rfl
  | cons y ys ih =>
    by_cases h : y.score > x.score
    · simp only [extractMax, if_pos h, List.length_cons, ih]
    · simp only [extractMax, if_neg h, List.length_cons, ih]

theorem extractMax_perm (x : ScoredTool) (ys : List ScoredTool) :
    ((extractMax x ys).1 :: (extractMax x ys).2).Perm (x :: ys) := by
  induction ys generalizing x with
  | nil => simp [extractMax]
  | cons y ys ih =>
    by_cases h : y.score > x.score
    · simp only [extractMax, if_pos h]
      exact List.Perm.trans
        (List.Perm.swap x (extractMax y ys).1 (extractMax y ys).2)
        ((ih y).cons x)
    · simp only [extractMax, if_neg h]
      refine List.Perm.trans
        (List.Perm.swap y (extractMax x ys).1 (extractMax x ys).2) ?_
      exact List.Perm.trans ((ih x).cons y) (List.Perm.swap x y ys)

theorem extractMax_fst_ge (x : ScoredTool) (ys : List ScoredTool) :
    x.score ≤ (extractMax x ys).1.score := by
  induction ys generalizing x with
  | nil => simp [extractMax]
  | cons y ys ih =>
    by_cases h : y.score > x.score
    · simp only [extractMax, if_pos h]
      exact le_trans (le_of_lt h) (ih y)
    · simp only [extractMax, if_neg h]
      exact ih x

theorem extractMax_snd_le (x : ScoredTool) (ys : List ScoredTool) :
    ∀ z ∈ (extractMax x ys).2, z.score ≤ (extractMax x ys).1.score := by
  induction ys generalizing x with
  | nil => intro z hz; simp [extractMax] at hz
  | cons y ys ih =>
    by_cases h : y.score > x.score
    · simp only [extractMax, if_pos h]
      intro z hz
      rcases List.mem_cons.mp hz with rfl | hz
      · exact le_trans (le_of_lt h) (extractMax_fst_ge y ys)
      · exact ih y z hz
    · simp only [extractMax, if_neg h]
      intro z hz
      rcases List.mem_cons.mp hz with rfl | hz
      · exact le_trans (not_lt.mp h) (extractMax_fst_ge x ys)
      · exact ih x z hz

theorem selSortFuel_perm :
    ∀ (fuel : Nat) (l : List ScoredTool), l.length ≤ fuel →
      (selSortFuel fuel l).Perm l := by
  intro fuel
  induction fuel with
  | zero =>
    intro l hl
    have hnil : l = [] := List.length_eq_zero.mp (Nat.le_zero.mp hl)
    subst hnil
    exact List.Perm.refl _
  | succ fuel ih =>
    intro l hl
    cases l with
    | nil => exact List.Perm.refl _
    | cons x xs =>
      simp only [selSortFuel]
      have hlen : (extractMax x xs).2.length ≤ fuel := by
        rw [extractMax_snd_length]
        exact Nat.le_of_succ_le_succ hl
      exact List.Perm.trans (List.Perm.cons _ (ih _ hlen)) (extractMax_perm x xs)

theorem selSortFuel_sorted :
    ∀ (fuel : Nat) (l : List ScoredTool), l.length ≤ fuel →
      (selSortFuel fuel l).Pairwise (fun a b => b.score ≤ a.score) := by
  intro fuel
  induction fuel with
  | zero =>
    intro l hl
    have hnil : l = [] := List.length_eq_zero.mp (Nat.le_zero.mp hl)
    subst hnil
    simp [selSortFuel]
  | succ fuel ih =>
    intro l hl
    cases l with
    | nil => simp [selSortFuel]
    | cons x xs =>
      simp only [selSortFuel]
      have hlen : (extractMax x xs).2.length ≤ fuel := by
        rw [extractMax_snd_length]
        exact Nat.le_of_succ_le_succ hl
      refine List.Pairwise.cons ?_ (ih _ hlen)
      intro z hz
      exact extractMax_snd_le x xs z ((selSortFuel_perm fuel _ hlen).mem_iff.mp hz)

theorem selSort_perm (l : List ScoredTool) : (selSort l).Perm l :=
  selSortFuel_perm l.length l (le_refl _)

theorem selSort_sorted (l : List ScoredTool) :
    (selSort l).Pairwise (fun a b => b.score ≤ a.score) :=
  selSortFuel_sorted l.length l (le_refl _)

/-! ## Properties of the name-to-tool map -/

theorem toolMapLookup_foldl_some {n : String} {t : Tool} :
    ∀ (toolsList : List Tool) (acc : Option Tool),
      toolsList.foldl (fun acc u => if u.Name = n then some u else acc) acc
        = some t →
      (t.Name = n ∧ t ∈ toolsList) ∨ acc = some t := by
  intro toolsList
  induction toolsList with
  | nil => intro acc h; exact Or.inr h
  | cons x xs ih =>
    intro acc h
    rcases ih _ h with ⟨hn, hm⟩ | hacc
    · exact Or.inl ⟨hn, List.mem_cons_of_mem _ hm⟩
    · replace hacc : (if x.Name = n then some x else acc) = some t := hacc
      by_cases hx : x.Name = n
      · rw [if_pos hx] at hacc
        obtain rfl := Option.some.inj hacc
        exact Or.inl ⟨hx, List.mem_cons_self _ _⟩
      · rw [if_neg hx] at hacc
        exact Or.inr hacc

theorem toolMapLookup_some {toolsList : List Tool} {n : String} {t : Tool}
    (h : toolMapLookup toolsList n = some t) :
    t.Name = n ∧ t ∈ toolsList := by
  rcases toolMapLookup_foldl_some toolsList none h with hgood | hbad
  · exact hgood
  · exact absurd hbad (by simp)

theorem toolMapLookup_foldl_isSome (n : String) :
    ∀ (toolsList : List Tool) (acc : Option Tool),
      (toolsList.foldl (fun acc u => if u.Name = n then some u else acc)
          acc).isSome
        = true
      ↔ (n ∈ toolsList.map Tool.Name ∨ acc.isSome = true) := by
  intro toolsList
  induction toolsList with
  | nil => simp
  | cons x xs ih =>
    intro acc
    simp only [List.foldl_cons, List.map_cons, List.mem_cons]
    rw [ih]
    by_cases hx : x.Name = n
    · simp [hx]
    · have hx2 : ¬ n = x.Name := fun h => hx h.symm
      simp [if_neg hx, hx2]

theorem toolMapLookup_none_iff (toolsList : List Tool) (n : String) :
    toolMapLookup toolsList n = none ↔ n ∉ toolsList.map Tool.Name := by
  have h := toolMapLookup_foldl_isSome n toolsList none
  simp only [Option.isSome_none, Bool.false_eq_true, or_false] at h
  constructor
  · intro hnone hmem
    have h2 : (toolMapLookup toolsList n).isSome = true := h.mpr hmem
    rw [hnone] at h2
    exact absurd h2 (by simp)
  · intro hnmem
    cases hl : toolMapLookup toolsList n with
    | none => rfl
    | some t =>
      have h2 : (toolMapLookup toolsList n).isSome = true := by rw [hl]; rfl
      exact absurd (h.mp h2) hnmem

theorem toolMapLookup_isSome_of_mem {toolsList : List Tool} {n : String}
    (h : n ∈ toolsList.map Tool.Name) :
    ∃ t, toolMapLookup toolsList n = some t := by
  cases hl : toolMapLookup toolsList n with
  | none => exact absurd h ((toolMapLookup_none_iff toolsList n).mp hl)
  | some t => exact ⟨t, rfl⟩

/-- `CodexSearchStore.Search` on a successful collaborator reply: both the
empty-catalog early return and the name-mapping branch produce exactly the
catalog lookups of the returned names, in order. -/
theorem codexSearch_ok_eq (toolsList : List Tool) (names : List String)
    (query : String) (topK : Int) :
    codexSearch toolsList (Except.ok names) query topK
      = Except.ok (names.filterMap (toolMapLookup toolsList)) := by
  unfold codexSearch
  by_cases h : toolsList.length = 0
  · rw [if_pos h]
    obtain rfl : toolsList = [] := List.length_eq_zero.mp h
    have hnil : names.filterMap (toolMapLookup []) = [] :=
      List.filterMap_eq_nil_iff.mpr fun a _ => rfl
    rw [hnil]
  · rw [if_neg h]

/-! ## The Mock (Lexical) scoring loop versus the spec's formula -/

theorem mockScore_foldl (nameL descL catL : String) (ws : List String)
    (init : Int) :
    ws.foldl
      (fun score word =>
        let score1 := if goContains nameL word then score + 3 else score
        let score2 := if goContains descL word then score1 + 2 else score1
        if goContains catL word then score2 + 1 else score2)
      init
    = init + 3 * (((ws.filter fun w => goContains nameL w).length : Int))
        + 2 * (((ws.filter fun w => goContains descL w).length : Int))
        + (((ws.filter fun w => goContains catL w).length : Int)) := by
  induction ws generalizing init with
  | nil => simp
  | cons w ws ih =>
    simp only [List.foldl_cons, List.filter_cons]
    rw [ih]
    by_cases h1 : goContains nameL w <;> by_cases h2 : goContains descL w <;>
      by_cases h3 : goContains catL w <;>
      simp only [h1, h2, h3, if_true, if_false, List.length_cons, ite_true,
        ite_false, Bool.false_eq_true] <;>
      push_cast <;> ring

theorem mockScore_eq_spec (query : String) (t : Tool) :
    mockScore (goFields (goToLower query)) t = lexScoreSpec query t := by
  unfold mockScore lexScoreSpec
  rw [mockScore_foldl]
  ring

/-- The `scored` list built by `MockSearchStore.Search` is exactly the
spec-side candidate list. -/
theorem mockScored_eq (toolsList : List Tool) (query : String) :
    (toolsList.filterMap fun t =>
      let score := mockScore (goFields (goToLower query)) t
      if score > 0 ∨ query = "" then some (⟨t, score⟩ : ScoredTool) else none)
    = lexCandidatesSpec toolsList query := by
  induction toolsList with
  | nil => rfl
  | cons t ts ih =>
    simp only [List.filterMap_cons, lexCandidatesSpec, List.filter_cons,
      mockScore_eq_spec] at ih ⊢
    by_cases h : lexScoreSpec query t > 0 ∨ query = ""
    · rw [if_pos h, ih]
      simp [h]
    · rw [if_neg h, ih]
      simp [h]

/-- `MockSearchStore.Search` on a non-empty store with non-negative `topK`:
the result is the exchange-sorted spec-side candidate list truncated to
`topK`. -/
theorem mockSearch_eq_sorted (toolsList : List Tool) (query : String)
    (topK : Int) (hne : ¬ toolsList.length = 0) (hk : ¬ topK < 0) :
    mockSearch toolsList query topK
      = some (((selSort (lexCandidatesSpec toolsList query)).take
          topK.toNat).map ScoredTool.tool) := by
  simp only [mockSearch, if_neg hne, if_neg hk]
  rw [mockScored_eq]

/-! ## Properties of the GloVe loader and `Generate` -/

theorem parseLine_eq_none {parse : String → Option ℚ} {line : String}
    (h : (goFields line).length < 2) : parseLine parse line = none := by
  unfold parseLine
  rcases hf : goFields line with _ | ⟨w, _ | ⟨v, rest⟩⟩
  · rfl
  · rfl
  · rw [hf] at h
    simp at h
    omega

theorem parseLine_eq_some {parse : String → Option ℚ} {line word : String}
    {rest : List String} (hf : goFields line = word :: rest) (hne : rest ≠ []) :
    parseLine parse line = some (word, rest.map fun s => (parse s).getD 0) := by
  unfold parseLine
  rw [hf]
  cases rest with
  | nil => exact absurd rfl hne
  | cons v vs => rfl

theorem getD_map_lt (f : String → ℚ) :
    ∀ (l : List String) (i : Nat), i < l.length →
      (l.map f).getD i 0 = f (l.getD i "") := by
  intro l
  induction l with
  | nil => intro i hi; simp at hi
  | cons x xs ih =>
    intro i hi
    cases i with
    | zero => simp
    | succ j =>
      simp only [List.map_cons, List.getD_cons_succ]
      exact ih j (Nat.lt_of_succ_lt_succ hi)

theorem accumVectors_all_none (table : List (String × List ℚ)) (dim : Nat) :
    ∀ (ws : List String) (emb : List ℚ) (count : Nat),
      (∀ w ∈ ws, vecLookup table w = none) →
      accumVectors table dim ws emb count = some (emb, count) := by
  intro ws
  induction ws with
  | nil => intro emb count _; rfl
  | cons w ws ih =>
    intro emb count h
    have hw : vecLookup table w = none := h w (List.mem_cons_self _ _)
    simp only [accumVectors, hw]
    exact ih emb count fun x hx => h x (List.mem_cons_of_mem _ hx)

theorem normalize_replicate_zero (sqrtF : ℚ → ℚ) (n : Nat) :
    normalize sqrtF (List.replicate n (0 : ℚ)) = List.replicate n 0 := by
  unfold normalize
  have hs : ((List.replicate n (0 : ℚ)).map fun x => x * x).sum = 0 := by
    simp [List.map_replicate, List.sum_replicate]
  simp [hs]

/-! ## Concrete fixtures used by witnesses and counterexamples -/

/-- A concrete catalog tool. -/
def toolAlpha : Tool :=
  { Name := "alpha", Category := "cat", Description := "desc",
    InputSchema := GoValue.nilV }

/-- A second concrete catalog tool. -/
def toolBeta : Tool :=
  { Name := "beta", Category := "infra", Description := "runs things",
    InputSchema := GoValue.mapSA [("type", GoValue.strV "object")] }

/-- A concrete stand-in for `strconv.ParseFloat`: parses exactly "1.5". -/
def parseStub : String → Option ℚ :=
  fun s => if s = "1.5" then some (3 / 2) else none

/-- A concrete two-dimensional embedder fixture. -/
def embedTwo : GloVeEmbedder :=
  { vectors := [("hello", [1, 2])], dim := 2 }

/-! ## The claims -/

/-- C1 (amended): for the Lexical strategy, whenever `Search` returns a list
(i.e. does not panic), its length is at most `max(topK, 0)`; for the
External-Rerank strategy the returned list's length is at most the number of
names the external collaborator returned (the Go code performs no `topK`
truncation there, so the `max(topK, 0)` bound holds only when the
collaborator returns at most that many names). -/
theorem search_length_bound :
    (∀ (toolsList : List Tool) (query : String) (topK : Int) (l : List Tool),
        mockSearch toolsList query topK = some l →
        (l.length : Int) ≤ max topK 0)
    ∧ (∀ (toolsList : List Tool) (names : List String) (query : String)
        (topK : Int),
        ∃ l, codexSearch toolsList (Except.ok names) query topK = Except.ok l
          ∧ l.length ≤ names.length) := by
  constructor
  · intro toolsList query topK l hl
    by_cases hne : toolsList.length = 0
    · simp only [mockSearch, if_pos hne] at hl
      obtain rfl := Option.some.inj hl
      simpa using le_max_right topK 0
    · by_cases hk : topK < 0
      · simp only [mockSearch, if_neg hne, if_pos hk] at hl
        exact absurd hl (by simp)
      · rw [mockSearch_eq_sorted toolsList query topK hne hk] at hl
        obtain rfl := Option.some.inj hl
        have hlen : ((selSort (lexCandidatesSpec toolsList query)).take
              topK.toNat).length ≤ topK.toNat :=
          le_trans (List.length_take_le _ _) (le_refl _)
        calc ((((selSort (lexCandidatesSpec toolsList query)).take
                topK.toNat).map ScoredTool.tool).length : Int)
            = (((selSort (lexCandidatesSpec toolsList query)).take
                topK.toNat).length : Int) := by rw [List.length_map]
          _ ≤ (topK.toNat : Int) := by exact_mod_cast hlen
          _ = topK := Int.toNat_of_nonneg (not_lt.mp hk)
          _ ≤ max topK 0 := le_max_left _ _
  · intro toolsList names query topK
    exact ⟨names.filterMap (toolMapLookup toolsList),
      codexSearch_ok_eq toolsList names query topK,
      List.length_filterMap_le _ _⟩

/-- C1 witness: the Lexical length bound applied at a concrete search. -/
theorem search_length_bound_witness :
    mockSearch [toolAlpha] "alpha" 5 = some [toolAlpha]
    ∧ (([toolAlpha] : List Tool).length : Int) ≤ max 5 0 :=
  ⟨rfl, search_length_bound.1 [toolAlpha] "alpha" 5 [toolAlpha] rfl⟩

/-- C1 counterexample: with `topK = 0` the External-Rerank strategy still
returns every catalog name the collaborator sent back, so the returned
length exceeds `max(topK, 0)`. -/
theorem search_length_bound_cex :
    codexSearch [toolAlpha] (Except.ok ["alpha"]) "any query" 0
      = Except.ok [toolAlpha]
    ∧ ¬ ((([toolAlpha] : List Tool).length : Int) ≤ max (0 : Int) 0) :=
  ⟨rfl, by decide⟩

/-- C2 (amended): for every strategy and catalog, `topK = 0` yields an empty
list without error; but for the Lexical strategy a negative `topK` on a
non-empty catalog panics (`make([]*tools.Tool, 0, topK)` with negative
capacity), modeled as `none`; for the External-Rerank strategy a
non-positive `topK` yields an empty list without error or panic whenever the
collaborator returns at most `max(topK, 0)` names. -/
theorem search_topk_nonpositive :
    (∀ (toolsList : List Tool) (query : String),
        mockSearch toolsList query 0 = some [])
    ∧ (∀ (toolsList : List Tool) (query : String) (topK : Int),
        topK < 0 → toolsList ≠ [] → mockSearch toolsList query topK = none)
    ∧ (∀ (toolsList : List Tool) (names : List String) (query : String)
        (topK : Int),
        topK ≤ 0 → (names.length : Int) ≤ max topK 0 →
        codexSearch toolsList (Except.ok names) query topK = Except.ok []) := by
  refine ⟨?_, ?_, ?_⟩
  · intro toolsList query
    by_cases hne : toolsList.length = 0
    · simp [mockSearch, hne]
    · rw [mockSearch_eq_sorted toolsList query 0 hne (by decide)]
      simp
  · intro toolsList query topK hk hne
    have hlen : ¬ toolsList.length = 0 := by
      simpa [List.length_eq_zero] using hne
    simp only [mockSearch, if_neg hlen, if_pos hk]
  · intro toolsList names query topK hk hlen
    have hmax : max topK 0 = 0 := max_eq_right hk
    rw [hmax] at hlen
    have : names.length = 0 := by exact_mod_cast le_antisymm hlen (by positivity)
    obtain rfl : names = [] := List.length_eq_zero.mp this
    rw [codexSearch_ok_eq]
    rfl

/-- C2 witness: the amended behaviors at concrete inputs. -/
theorem search_topk_nonpositive_witness :
    mockSearch [toolAlpha] "x" 0 = some []
    ∧ mockSearch [toolAlpha] "x" (-1) = none
    ∧ codexSearch [toolAlpha] (Except.ok []) "x" (-1) = Except.ok [] :=
  ⟨search_topk_nonpositive.1 [toolAlpha] "x",
   search_topk_nonpositive.2.1 [toolAlpha] "x" (-1) (by decide)
     (List.cons_ne_nil _ _),
   search_topk_nonpositive.2.2 [toolAlpha] [] "x" (-1) (by decide) (by decide)⟩

/-- C2 counterexample: on a non-empty catalog the Lexical strategy panics
for `topK = -1` (the `none` models the `makeslice: cap out of range`
runtime panic) instead of returning an empty list. -/
theorem search_topk_nonpositive_cex :
    mockSearch [toolAlpha] "some query" (-1) = none
    ∧ mockSearch [toolAlpha] "some query" (-1) ≠ some [] := by
  refine ⟨rfl, ?_⟩
  rw [show mockSearch [toolAlpha] "some query" (-1) = none from rfl]
  simp

/-- C3: for every strategy an empty index (never built, or built from the
empty tool list — both leave the store's slice empty) makes `Search` return
the empty list and no error, for every query, every `topK` (negative ones
included), and every collaborator reply. -/
theorem search_empty_index :
    (∀ (query : String) (topK : Int), mockSearch [] query topK = some [])
    ∧ (∀ (searcherResult : Except String (List String)) (query : String)
        (topK : Int), codexSearch [] searcherResult query topK = Except.ok []) := by
  exact ⟨fun query topK => rfl, fun searcherResult query topK => rfl⟩

/-- C4: the Lexical strategy's result is obtained from the spec's scoring:
the query is split into whitespace-delimited lowercase words; each tool
scores 3 per word contained in the lowercased name plus 2 per word in the
lowercased description plus 1 per word in the lowercased category; a tool is
a candidate exactly when its score is positive or the query is empty; and
the result is a score-descending reordering of the candidate list truncated
to `topK`. -/
theorem mockSearch_lexical_correct (toolsList : List Tool) (query : String)
    (topK : Int) (hk : 0 ≤ topK) :
    ∃ ranked : List ScoredTool,
      mockSearch toolsList query topK
        = some ((ranked.take topK.toNat).map ScoredTool.tool)
      ∧ ranked.Perm (lexCandidatesSpec toolsList query)
      ∧ ranked.Pairwise (fun a b => b.score ≤ a.score)
      ∧ ∀ st ∈ ranked, st.score = lexScoreSpec query st.tool := by
  have hscores : ∀ st ∈ selSort (lexCandidatesSpec toolsList query),
      st.score = lexScoreSpec query st.tool := by
    intro st hst
    have hmem : st ∈ lexCandidatesSpec toolsList query :=
      (selSort_perm _).mem_iff.mp hst
    simp only [lexCandidatesSpec, List.mem_map] at hmem
    obtain ⟨t, _, rfl⟩ := hmem
    rfl
  by_cases hne : toolsList.length = 0
  · obtain rfl : toolsList = [] := List.length_eq_zero.mp hne
    refine ⟨[], ?_, ?_, List.Pairwise.nil, by simp⟩
    · simp [mockSearch]
    · simp [lexCandidatesSpec]
  · refine ⟨selSort (lexCandidatesSpec toolsList query),
      mockSearch_eq_sorted toolsList query topK hne (not_lt.mpr hk),
      selSort_perm _, selSort_sorted _, hscores⟩

/-- C4 witness: the spec's own worked example — catalog
`[deploy-tool/infra, other/deploy]`, query `"deploy"`, `topK = 2`. -/
theorem mockSearch_lexical_correct_witness :
    ∃ ranked : List ScoredTool,
      mockSearch
          [{ Name := "deploy-tool", Category := "infra", Description := "",
             InputSchema := GoValue.nilV },
           { Name := "other", Category := "deploy", Description := "",
             InputSchema := GoValue.nilV }] "deploy" 2
        = some ((ranked.take (2 : Int).toNat).map ScoredTool.tool)
      ∧ ranked.Perm (lexCandidatesSpec
          [{ Name := "deploy-tool", Category := "infra", Description := "",
             InputSchema := GoValue.nilV },
           { Name := "other", Category := "deploy", Description := "",
             InputSchema := GoValue.nilV }] "deploy")
      ∧ ranked.Pairwise (fun a b => b.score ≤ a.score)
      ∧ ∀ st ∈ ranked, st.score = lexScoreSpec "deploy" st.tool :=
  mockSearch_lexical_correct _ "deploy" 2 (by decide)

/-- C5: the External-Rerank strategy drops every collaborator-returned name
that is not the Name of a catalog tool, without error, and the result length
is at most the number of returned names. -/
theorem codexSearch_drops_unknown (toolsList : List Tool) (names : List String)
    (query : String) (topK : Int) :
    ∃ l, codexSearch toolsList (Except.ok names) query topK = Except.ok l
      ∧ l.length ≤ names.length
      ∧ (∀ t ∈ l, t ∈ toolsList ∧ t.Name ∈ names)
      ∧ ∀ name ∈ names, name ∉ toolsList.map Tool.Name →
          ∀ t ∈ l, t.Name ≠ name := by
  refine ⟨names.filterMap (toolMapLookup toolsList),
    codexSearch_ok_eq toolsList names query topK,
    List.length_filterMap_le _ _, ?_, ?_⟩
  · intro t ht
    obtain ⟨n, hn, hl⟩ := List.mem_filterMap.mp ht
    obtain ⟨hname, hmem⟩ := toolMapLookup_some hl
    exact ⟨hmem, hname ▸ hn⟩
  · intro name _ hnot t ht heq
    obtain ⟨n, hn, hl⟩ := List.mem_filterMap.mp ht
    obtain ⟨hnm, hmem⟩ := toolMapLookup_some hl
    exact hnot (List.mem_map.mpr ⟨t, hmem, heq⟩)

/-- C5 witness: a collaborator reply containing the unknown name "ghost". -/
theorem codexSearch_drops_unknown_witness :
    ∃ l, codexSearch [toolAlpha, toolBeta] (Except.ok ["beta", "ghost"]) "q" 3
        = Except.ok l
      ∧ l.length ≤ (["beta", "ghost"] : List String).length
      ∧ (∀ t ∈ l, t ∈ [toolAlpha, toolBeta] ∧ t.Name ∈ ["beta", "ghost"])
      ∧ ∀ name ∈ (["beta", "ghost"] : List String),
          name ∉ [toolAlpha, toolBeta].map Tool.Name →
          ∀ t ∈ l, t.Name ≠ name :=
  codexSearch_drops_unknown [toolAlpha, toolBeta] ["beta", "ghost"] "q" 3

/-- The Names of the mapped-back results are exactly the collaborator's
names restricted, in order, to those present in the catalog. -/
theorem filterMap_lookup_names (toolsList : List Tool) :
    ∀ names : List String,
      (names.filterMap (toolMapLookup toolsList)).map Tool.Name
        = names.filter fun n => decide (n ∈ toolsList.map Tool.Name) := by
  intro names
  induction names with
  | nil => rfl
  | cons n rest ih =>
    simp only [List.filterMap_cons, List.filter_cons]
    cases hl : toolMapLookup toolsList n with
    | none =>
      have hn : n ∉ toolsList.map Tool.Name :=
        (toolMapLookup_none_iff _ _).mp hl
      simp [hn, ih]
    | some t =>
      have hmem : n ∈ toolsList.map Tool.Name := by
        by_contra hc
        rw [(toolMapLookup_none_iff _ _).mpr hc] at hl
        exact Option.noConfusion hl
      obtain ⟨hname, _⟩ := toolMapLookup_some hl
      simp [hmem, ih, hname]

/-- C6: on a catalog with pairwise-distinct tool names, the External-Rerank
result lists catalog tools in exactly the collaborator's order restricted to
names present in the catalog. -/
theorem codexSearch_preserves_order (toolsList : List Tool)
    (names : List String) (query : String) (topK : Int)
    (hnd : (toolsList.map Tool.Name).Nodup) :
    ∃ l, codexSearch toolsList (Except.ok names) query topK = Except.ok l
      ∧ l.map Tool.Name
          = names.filter (fun n => decide (n ∈ toolsList.map Tool.Name))
      ∧ ∀ t ∈ l, t ∈ toolsList := by
  refine ⟨names.filterMap (toolMapLookup toolsList),
    codexSearch_ok_eq toolsList names query topK,
    filterMap_lookup_names toolsList names, ?_⟩
  intro t ht
  obtain ⟨n, _, hl⟩ := List.mem_filterMap.mp ht
  exact (toolMapLookup_some hl).2

/-- C6 witness: the collaborator's order `["beta", "ghost", "alpha"]` is
preserved (restricted to the catalog names). -/
theorem codexSearch_preserves_order_witness :
    ∃ l, codexSearch [toolAlpha, toolBeta]
          (Except.ok ["beta", "ghost", "alpha"]) "q" 2 = Except.ok l
      ∧ l.map Tool.Name
          = (["beta", "ghost", "alpha"] : List String).filter
              (fun n => decide (n ∈ [toolAlpha, toolBeta].map Tool.Name))
      ∧ ∀ t ∈ l, t ∈ [toolAlpha, toolBeta] :=
  codexSearch_preserves_order [toolAlpha, toolBeta] ["beta", "ghost", "alpha"]
    "q" 2 (by decide)

/-- C7: for every tool, the metadata built by the External-Rerank
`BuildFromTools` carries the tool's Name, Category and Description; its
`Parameters` field is set exactly when the tool's `InputSchema` is a
string-keyed mapping, and is omitted (with the build still succeeding) for
every other shape, including an absent (nil) schema. -/
theorem buildFromTools_projection :
    (∀ allTools : List Tool,
        buildFromTools allTools = Except.ok (allTools.map buildMetadata))
    ∧ (∀ t : Tool,
        (buildMetadata t).Name = t.Name
        ∧ (buildMetadata t).Category = t.Category
        ∧ (buildMetadata t).Description = t.Description
        ∧ (buildMetadata t).Parameters
            = (match t.InputSchema with
               | GoValue.mapSA m => some m
               | _ => none)
        ∧ ∀ m, ((buildMetadata t).Parameters = some m
            ↔ t.InputSchema = GoValue.mapSA m)) := by
  refine ⟨fun _ => rfl, fun t => ?_⟩
  obtain ⟨name, cat, desc, schema⟩ := t
  cases schema <;> simp [buildMetadata]

/-- C8: the vector-file parser skips a line with fewer than two fields
without contributing an entry; on a line with at least two fields it stores
the word with one slot per remaining field, a slot holding the parsed value
on success and zero on parse failure; and neither condition aborts the scan
of the other lines or produces an error. -/
theorem loadGloVe_tolerant (parse : String → Option ℚ) :
    (∀ (pre post : List String) (line : String),
        (goFields line).length < 2 →
        loadGloVeVectors parse (pre ++ line :: post)
          = loadGloVeVectors parse (pre ++ post))
    ∧ (∀ (pre post : List String) (line word : String) (rest : List String),
        goFields line = word :: rest → rest ≠ [] →
        loadGloVeVectors parse (pre ++ line :: post)
          = loadGloVeVectors parse pre
            ++ ((word, rest.map fun s => (parse s).getD 0)
              :: loadGloVeVectors parse post))
    ∧ (∀ (rest : List String) (i : Nat), i < rest.length →
        (rest.map fun s => (parse s).getD 0).length = rest.length
        ∧ (∀ v, parse (rest.getD i "") = some v →
            (rest.map fun s => (parse s).getD 0).getD i 0 = v)
        ∧ (parse (rest.getD i "") = none →
            (rest.map fun s => (parse s).getD 0).getD i 0 = 0)) := by
  refine ⟨?_, ?_, ?_⟩
  · intro pre post line h
    unfold loadGloVeVectors
    rw [List.filterMap_append, List.filterMap_append, List.filterMap_cons,
      parseLine_eq_none h]
  · intro pre post line word rest hf hne
    unfold loadGloVeVectors
    rw [List.filterMap_append, List.filterMap_cons, parseLine_eq_some hf hne]
  · intro rest i hi
    refine ⟨by simp, ?_, ?_⟩
    · intro v hv
      rw [getD_map_lt _ rest i hi]
      show (parse (rest.getD i "")).getD 0 = v
      rw [hv]
      rfl
    · intro hv
      rw [getD_map_lt _ rest i hi]
      show (parse (rest.getD i "")).getD 0 = 0
      rw [hv]
      rfl

/-- C8 witness: a one-field line is skipped between two good lines; a line
`"w 1.5 x"` stores `("w", [3/2, 0])` with the unparsable field zero-filled. -/
theorem loadGloVe_tolerant_witness :
    loadGloVeVectors parseStub (["alpha 1.5"] ++ "junk" :: ["beta 1.5"])
      = loadGloVeVectors parseStub (["alpha 1.5"] ++ ["beta 1.5"])
    ∧ loadGloVeVectors parseStub ([] ++ "w 1.5 x" :: ["beta 1.5"])
      = loadGloVeVectors parseStub []
        ++ (("w", (["1.5", "x"] : List String).map fun s => (parseStub s).getD 0)
          :: loadGloVeVectors parseStub ["beta 1.5"])
    ∧ (parseStub ((["1.5", "x"] : List String).getD 1 "") = none →
        ((["1.5", "x"] : List String).map
          fun s => (parseStub s).getD 0).getD 1 0 = 0) :=
  ⟨(loadGloVe_tolerant parseStub).1 ["alpha 1.5"] ["beta 1.5"] "junk"
      (by decide),
   (loadGloVe_tolerant parseStub).2.1 [] ["beta 1.5"] "w 1.5 x" "w"
      ["1.5", "x"] (by decide) (by decide),
   ((loadGloVe_tolerant parseStub).2.2 ["1.5", "x"] 1 (by decide)).2.2⟩

/-- C9: whenever tokenization finds no usable token (empty text, only
stopwords or length-one tokens — then the token list is empty — or all
tokens out of vocabulary), `Generate` returns the all-zero vector of length
`Dimension()` and no error (and no panic). -/
theorem generate_zero_tokens (sqrtF : ℚ → ℚ) (e : GloVeEmbedder)
    (text : String)
    (h : ∀ w ∈ tokenize text, vecLookup e.vectors w = none) :
    generate sqrtF e text = some (List.replicate (dimension e) 0)
    ∧ (List.replicate (dimension e) (0 : ℚ)).length = dimension e := by
  refine ⟨?_, List.length_replicate _ _⟩
  simp only [generate, dimension]
  by_cases hlen : (tokenize text).length = 0
  · rw [if_pos hlen]
  · rw [if_neg hlen,
      accumVectors_all_none e.vectors e.dim (tokenize text) _ _ h]
    simp [normalize_replicate_zero]

/-- C9 witness: `"the a is"` tokenizes to nothing (stopwords and a
length-one token), so `Generate` yields the zero vector of the embedder's
dimension. -/
theorem generate_zero_tokens_witness :
    generate id embedTwo "the a is" = some (List.replicate (dimension embedTwo) 0)
    ∧ (List.replicate (dimension embedTwo) (0 : ℚ)).length
        = dimension embedTwo :=
  generate_zero_tokens id embedTwo "the a is" (by decide)

/-- C10: evaluation of the code at the failing input of the vector-length
safety claim.  The loader accepts the line `"hi 1.0"` for the 50-dimensional
preset and stores a vector of length 1 (it never checks the field count
against the dimension), and `Generate("hi")` then indexes that vector at
positions `0 .. 49` — an index-out-of-range panic, modeled as `none` — for
every parse behaviour and every square-root function. -/
theorem generate_short_vector_out_of_range (parse : String → Option ℚ)
    (sqrtF : ℚ → ℚ) :
    ∃ e : GloVeEmbedder,
      newGloVeEmbedder "6B.50d" (loadGloVeVectors parse ["hi 1.0"]) = some e
      ∧ dimension e = 50
      ∧ (∃ vec, vecLookup e.vectors "hi" = some vec ∧ vec.length = 1
          ∧ vec.length < dimension e)
      ∧ generate sqrtF e "hi" = none := by
  refine ⟨{ vectors := loadGloVeVectors parse ["hi 1.0"], dim := 50 },
    rfl, rfl, ⟨[(parse "1.0").getD 0], rfl, rfl,
    (by norm_num : (1 : Nat) < 50)⟩, rfl⟩

end OneMcp
